import Mathlib

/-
  Verification of the BizTrack Pro P&L engine (src/utils/plEngine.js).

  The two exported functions `computePL` and `computeDashboardKPIs` are pure
  aggregations over in-memory record arrays.  They are embedded shallowly:

  * JS numbers are modelled as exact rationals (ℚ); `x || 0` on a numeric
    field becomes `orZ` on an `Option ℚ`.
  * JS strings are `String`; `x || dflt` on a string field becomes `orStr`
    (absent and the empty string are both falsy in JS).
  * A JS property key built from a possibly-absent string field coerces
    `undefined` to the key "undefined"; this is `jsKey`.
  * Each aggregator reads the wall clock (`new Date()`); the evaluation
    instant is made an explicit parameter `now : ℤ` (an epoch-style instant),
    and a parsed due date is `Option ℤ` (`none` for an absent/empty field).
    `computeDashboardKPIs` additionally derives today's date string from the
    clock; that string is the explicit parameter `today`.
  * A plain JS object used as an accumulator map is an insertion-ordered
    association list `List (String × β)`; `updateAssoc` is `obj[k] = f(old)`.
  * `Array.prototype.sort` with a consistent comparator is the stable sort
    `jsSort` (insertion based); `Array.reduce((s, r) => s + f r, 0)` is
    `sumBy`; `Array.slice(0, 10)` is `List.take 10`; `[...new Set(l)].length`
    is `List.dedup` followed by `List.length`.
  * `localeCompare` on ASCII date strings is code-point lexicographic
    comparison, `strLe`.
  * `Number.prototype.toFixed(1)` is `toFixed1` on the exact rational value.
  * `computePL` also receives a `settings` object but its body never reads
    it, so the parameter is dropped from the embedding.
-/

namespace BizTrack

/-! ## String constants appearing in the source -/

def kPAID : String := "PAID"

def kPARTIAL : String := "PARTIAL"

def kUNPAID : String := "UNPAID"

def kOVERDUE : String := "OVERDUE"

def uncategorised : String := "Uncategorised"

def walkIn : String := "Walk-in"

def cashLabel : String := "Cash"

/-- JS coerces the value `undefined` to this string when it is used as a
property key. -/
def undefinedKey : String := "undefined"

def zeroRate : String := "0.0"

def emptyStr : String := ""

def negSign : String := "-"

def dotStr : String := "."

/-! ## JS coercion helpers -/

/-- JS `x || 0` on an optional numeric field. -/
def orZ (o : Option ℚ) : ℚ := o.getD 0

/-- JS `x || dflt` on an optional string field: both an absent field and the
empty string are falsy. -/
def orStr (o : Option String) (dflt : String) : String :=
  match o with
  | none => dflt
  | some s => if s = emptyStr then dflt else s

/-- JS `x || dflt` on an optional numeric field: both an absent field and an
explicit `0` are falsy. -/
def orD (o : Option ℚ) (dflt : ℚ) : ℚ :=
  match o with
  | none => dflt
  | some x => if x = 0 then dflt else x

/-- JS property lookup with a possibly-absent string: `undefined` is coerced
to the key "undefined". -/
def jsKey (o : Option String) : String := o.getD undefinedKey

/-- `Number.prototype.toFixed(1)` on an exact rational: round to one decimal
place, ties toward positive infinity (the ECMA rule picks the larger
candidate). -/
def toFixed1 (q : ℚ) : String :=
  let n : ℤ := ⌊q * 10 + 1 / 2⌋
  (if n < 0 then negSign else emptyStr)
    ++ toString (n.natAbs / 10) ++ dotStr ++ toString (n.natAbs % 10)

/-! ## Generic list machinery: reduce, object maps, stable sort -/

/-- `Array.reduce((s, r) => s + f(r), 0)`. -/
def sumBy {α : Type} (f : α → ℚ) (l : List α) : ℚ :=
  l.foldl (fun s r => s + f r) 0

/-- One JS object update `m[k] = f (m[k] ?? d)`: if the key is present its
value is rewritten in place, otherwise the new key is appended (JS objects
preserve insertion order). -/
def updateAssoc {β : Type} (m : List (String × β)) (k : String) (d : β)
    (f : β → β) : List (String × β) :=
  match m with
  | [] => [(k, f d)]
  | p :: rest =>
      if p.1 = k then (p.1, f p.2) :: rest else p :: updateAssoc rest k d f

/-- Read a key from an object map, with default `d` for an absent key. -/
def lookupD {β : Type} (m : List (String × β)) (k : String) (d : β) : β :=
  match m with
  | [] => d
  | p :: rest => if p.1 = k then p.2 else lookupD rest k d

/-- `xs.forEach(x => { m[key x] = step x (m[key x] ?? d) })` starting from
map `m0`. -/
def groupAccum {α β : Type} (key : α → String) (d : β) (step : α → β → β)
    (m0 : List (String × β)) (xs : List α) : List (String × β) :=
  xs.foldl (fun m x => updateAssoc m (key x) d (step x)) m0

/-- Insert `x` after every already-placed element `y` with `le y x`. -/
def ins {α : Type} (le : α → α → Bool) (x : α) : List α → List α
  | [] => [x]
  | y :: ys => if le y x then y :: ins le x ys else x :: y :: ys

/-- Stable sort: the model of `Array.prototype.sort` with a consistent
comparator (`le a b` means the comparator puts `a` no later than `b`). -/
def jsSort {α : Type} (le : α → α → Bool) (xs : List α) : List α :=
  xs.foldl (fun acc x => ins le x acc) []

/-- Code-point lexicographic comparison of char lists. -/
def charListLe : List Char → List Char → Bool
  | [], _ => true
  | _ :: _, [] => false
  | c :: cs, d :: ds => if c = d then charListLe cs ds else decide (c < d)

/-- Code-point lexicographic comparison of strings: the model of
`a.localeCompare(b) <= 0` on ASCII date strings. -/
def strLe (a b : String) : Bool := charListLe a.data b.data

/-! ## Data model (fields the engine reads) -/

structure Sale where
  total : Option ℚ := none
  paid : Option ℚ := none
  qty : Option ℚ := none
  costPrice : Option ℚ := none
  balance : Option ℚ := none
  status : String := emptyStr
  dueDate : Option ℤ := none
  category : Option String := none
  customer : Option String := none
  method : Option String := none
  date : Option String := none

structure Expense where
  category : Option String := none
  amount : Option ℚ := none

structure Ret where
  refund : Option ℚ := none

structure InvItem where
  stock : Option ℚ := none
  reorderLevel : Option ℚ := none

/-! ## computePL: the P&L aggregator -/

/-- Debt-segmentation predicate `isOverdue` from `computePL`:
`if (s.status === 'PAID') return false; if (!s.dueDate) return false;
return new Date(s.dueDate) < now;`. -/
def isOverdue (now : ℤ) (s : Sale) : Bool :=
  if s.status = kPAID then false
  else
    match s.dueDate with
    | none => false
    | some d => decide (d < now)

/-- `s.category || 'Uncategorised'`. -/
def saleCategory (s : Sale) : String := orStr s.category uncategorised

/-- `s.customer || 'Walk-in'`. -/
def saleCustomer (s : Sale) : String := orStr s.customer walkIn

/-- `s.method || 'Cash'`. -/
def saleMethod (s : Sale) : String := orStr s.method cashLabel

/-- `(s.date || '').slice(0, 10)`. -/
def saleDay (s : Sale) : String := (s.date.getD emptyStr).take 10

/-- Per-category accumulator `{ revenue, cogs, profit, qty, count }`. -/
structure CatAcc where
  revenue : ℚ
  cogs : ℚ
  profit : ℚ
  qty : ℚ
  count : ℕ

def catAcc0 : CatAcc := ⟨0, 0, 0, 0, 0⟩

def catStep (s : Sale) (a : CatAcc) : CatAcc :=
  { revenue := a.revenue + orZ s.total
    cogs := a.cogs + orZ s.qty * orZ s.costPrice
    profit := a.profit + (orZ s.total - orZ s.qty * orZ s.costPrice)
    qty := a.qty + orZ s.qty
    count := a.count + 1 }

/-- The `categoryBreakdown` object built by `computePL`. -/
def categoryBreakdownMap (sales : List Sale) : List (String × CatAcc) :=
  groupAccum saleCategory catAcc0 catStep [] sales

structure CatEntry where
  name : String
  revenue : ℚ
  cogs : ℚ
  profit : ℚ
  qty : ℚ
  count : ℕ
  margin : String

/-- `categorySorted`: sort descending by revenue, attach the margin string. -/
def categorySorted (sales : List Sale) : List CatEntry :=
  (jsSort (fun a b => decide (b.2.revenue ≤ a.2.revenue))
      (categoryBreakdownMap sales)).map
    (fun p =>
      ⟨p.1, p.2.revenue, p.2.cogs, p.2.profit, p.2.qty, p.2.count,
        if 0 < p.2.revenue then toFixed1 (p.2.profit / p.2.revenue * 100)
        else zeroRate⟩)

/-- The `paymentMethods` object: per method, summed `paid`. -/
def paymentMethodsMap (sales : List Sale) : List (String × ℚ) :=
  groupAccum saleMethod 0 (fun s v => v + orZ s.paid) [] sales

structure PayEntry where
  method : String
  amount : ℚ
  pct : String

/-- `paymentMethodsSorted`: sort descending by amount, attach the share of
`collected`. -/
def paymentMethodsSorted (collected : ℚ) (sales : List Sale) : List PayEntry :=
  (jsSort (fun a b => decide (b.2 ≤ a.2)) (paymentMethodsMap sales)).map
    (fun p =>
      ⟨p.1, p.2,
        if 0 < collected then toFixed1 (p.2 / collected * 100) else zeroRate⟩)

/-- The `expenseByCategory` object: the key is the raw `e.category` property
(no fallback in the source; an absent field coerces to "undefined"). -/
def expenseByCategory (expenses : List Expense) : List (String × ℚ) :=
  groupAccum (fun e => jsKey e.category) 0 (fun e v => v + orZ e.amount) []
    expenses

structure ExpEntry where
  category : String
  amount : ℚ
  pct : String

/-- `expenseSorted`: sort descending by amount, attach the share of
`totalExp`. -/
def expenseSorted (totalExp : ℚ) (expenses : List Expense) : List ExpEntry :=
  (jsSort (fun a b => decide (b.2 ≤ a.2)) (expenseByCategory expenses)).map
    (fun p =>
      ⟨p.1, p.2,
        if 0 < totalExp then toFixed1 (p.2 / totalExp * 100) else zeroRate⟩)

/-- Per-customer accumulator `{ revenue, paid, balance, count }`. -/
structure CustAcc where
  revenue : ℚ
  paid : ℚ
  balance : ℚ
  count : ℕ

def custAcc0 : CustAcc := ⟨0, 0, 0, 0⟩

def custStep (s : Sale) (a : CustAcc) : CustAcc :=
  { revenue := a.revenue + orZ s.total
    paid := a.paid + orZ s.paid
    balance := a.balance + orZ s.balance
    count := a.count + 1 }

/-- The `customerRevenue` object built by `computePL`. -/
def customerRevenue (sales : List Sale) : List (String × CustAcc) :=
  groupAccum saleCustomer custAcc0 custStep [] sales

structure CustEntry where
  name : String
  revenue : ℚ
  paid : ℚ
  balance : ℚ
  count : ℕ

/-- `topCustomers`: sort descending by revenue and keep the first ten. -/
def topCustomersOf (sales : List Sale) : List CustEntry :=
  ((jsSort (fun a b => decide (b.2.revenue ≤ a.2.revenue))
        (customerRevenue sales)).take 10).map
    (fun p => ⟨p.1, p.2.revenue, p.2.paid, p.2.balance, p.2.count⟩)

/-- Per-day accumulator `{ revenue, profit }`. -/
structure TrendAcc where
  revenue : ℚ
  profit : ℚ

def trendAcc0 : TrendAcc := ⟨0, 0⟩

def trendStep (s : Sale) (a : TrendAcc) : TrendAcc :=
  { revenue := a.revenue + orZ s.total
    profit := a.profit + (orZ s.total - orZ s.qty * orZ s.costPrice) }

/-- The `dailyTrend` object: a sale whose day string is empty is skipped
(`if (day)` in the source). -/
def dailyTrendMap (sales : List Sale) : List (String × TrendAcc) :=
  sales.foldl
    (fun m s =>
      if saleDay s = emptyStr then m
      else updateAssoc m (saleDay s) trendAcc0 (trendStep s))
    []

structure TrendEntry where
  date : String
  revenue : ℚ
  profit : ℚ

/-- `trendSorted`: sort ascending by the day string (`localeCompare`). -/
def trendSorted (sales : List Sale) : List TrendEntry :=
  (jsSort (fun a b => strLe a.1 b.1) (dailyTrendMap sales)).map
    (fun p => ⟨p.1, p.2.revenue, p.2.profit⟩)

/-- The fixed starting map `{ PAID: 0, PARTIAL: 0, UNPAID: 0, OVERDUE: 0 }`. -/
def initStatusCounts : List (String × ℕ) :=
  [(kPAID, 0), (kPARTIAL, 0), (kUNPAID, 0), (kOVERDUE, 0)]

/-- `statusCounts[s.status] = (statusCounts[s.status] || 0) + 1` over all
sales. -/
def statusCountsOf (sales : List Sale) : List (String × ℕ) :=
  groupAccum Sale.status 0 (fun _ v => v + 1) initStatusCounts sales

structure PLResult where
  revenue : ℚ
  collected : ℚ
  outstanding : ℚ
  cogs : ℚ
  grossProfit : ℚ
  grossMargin : String
  totalExpenses : ℚ
  netProfit : ℚ
  netMargin : String
  collectionRate : String
  refunds : ℚ
  overdueDebt : ℚ
  upcomingDebt : ℚ
  salesCount : ℕ
  uniqueCustomers : ℕ
  unitsSold : ℚ
  statusCounts : List (String × ℕ)
  categoryBreakdown : List CatEntry
  paymentMethods : List PayEntry
  expenseBreakdown : List ExpEntry
  topCustomers : List CustEntry
  dailyTrend : List TrendEntry
  computedAt : ℤ

/-- `computePL(sales, expenses, returns, settings)` with the evaluation
instant `now` made explicit (`settings` is never read by the source body). -/
def computePL (now : ℤ) (sales : List Sale) (expenses : List Expense)
    (returns : List Ret) : PLResult :=
  let revenue := sumBy (fun r => orZ r.total) sales
  let collected := sumBy (fun r => orZ r.paid) sales
  let cogs := sumBy (fun r => orZ r.qty * orZ r.costPrice) sales
  let grossP := revenue - cogs
  let totalExp := sumBy (fun r => orZ r.amount) expenses
  let netP := grossP - totalExp
  let refunds := sumBy (fun r => orZ r.refund) returns
  let outstanding := sumBy (fun r => orZ r.balance) sales
  let cr := if 0 < revenue then toFixed1 (collected / revenue * 100)
    else zeroRate
  let gm := if 0 < revenue then toFixed1 (grossP / revenue * 100)
    else zeroRate
  let nm := if 0 < revenue then toFixed1 (netP / revenue * 100)
    else zeroRate
  let overdueDebt := sumBy (fun r => orZ r.balance)
    (sales.filter (fun s => isOverdue now s && decide (0 < orZ s.balance)))
  let upcomingDebt := sumBy (fun r => orZ r.balance)
    (sales.filter
      (fun s =>
        !isOverdue now s && decide (s.status ≠ kPAID)
          && decide (0 < orZ s.balance)))
  { revenue := revenue
    collected := collected
    outstanding := outstanding
    cogs := cogs
    grossProfit := grossP
    grossMargin := gm
    totalExpenses := totalExp
    netProfit := netP
    netMargin := nm
    collectionRate := cr
    refunds := refunds
    overdueDebt := overdueDebt
    upcomingDebt := upcomingDebt
    salesCount := sales.length
    uniqueCustomers := ((sales.map Sale.customer).dedup).length
    unitsSold := sumBy (fun r => orZ r.qty) sales
    statusCounts := statusCountsOf sales
    categoryBreakdown := categorySorted sales
    paymentMethods := paymentMethodsSorted collected sales
    expenseBreakdown := expenseSorted totalExp expenses
    topCustomers := topCustomersOf sales
    dailyTrend := trendSorted sales
    computedAt := now }

/-! ## computeDashboardKPIs -/

/-- The inline overdue filter of `computeDashboardKPIs`:
`if (s.status === 'PAID') return false; if (!s.dueDate) return false;
return new Date(s.dueDate) < now && (s.balance || 0) > 0;`. -/
def kpiOverdue (now : ℤ) (s : Sale) : Bool :=
  if s.status = kPAID then false
  else
    match s.dueDate with
    | none => false
    | some d => decide (d < now) && decide (0 < orZ s.balance)

structure KPIResult where
  todayRevenue : ℚ
  todayProfit : ℚ
  totalRevenue : ℚ
  totalCollected : ℚ
  totalBalance : ℚ
  overdueCount : ℕ
  lowStockCount : ℕ
  outOfStockCount : ℕ
  totalExpenses : ℚ
  grossProfit : ℚ
  netProfit : ℚ
  grossMargin : String
  netMargin : String

/-- `computeDashboardKPIs(sales, expenses, inventory)`; the evaluation instant
`now` and the clock-derived day string `today` are explicit parameters. -/
def computeDashboardKPIs (now : ℤ) (today : String) (sales : List Sale)
    (expenses : List Expense) (inventory : List InvItem) : KPIResult :=
  let todaySales := sales.filter (fun s => saleDay s = today)
  let todayRevenue := sumBy (fun r => orZ r.total) todaySales
  let todayProfit :=
    sumBy (fun r => orZ r.total - orZ r.qty * orZ r.costPrice) todaySales
  let totalRevenue := sumBy (fun r => orZ r.total) sales
  let totalCollected := sumBy (fun r => orZ r.paid) sales
  let totalBalance := sumBy (fun r => orZ r.balance) sales
  let overdueCount := (sales.filter (kpiOverdue now)).length
  let lowStockCount :=
    (inventory.filter
      (fun p => decide (orZ p.stock ≤ orD p.reorderLevel 5))).length
  let outOfStockCount :=
    (inventory.filter (fun p => decide (orZ p.stock = 0))).length
  let totalExpenses := sumBy (fun r => orZ r.amount) expenses
  let cogs := sumBy (fun r => orZ r.qty * orZ r.costPrice) sales
  let grossProfit := totalRevenue - cogs
  let netProfit := grossProfit - totalExpenses
  { todayRevenue := todayRevenue
    todayProfit := todayProfit
    totalRevenue := totalRevenue
    totalCollected := totalCollected
    totalBalance := totalBalance
    overdueCount := overdueCount
    lowStockCount := lowStockCount
    outOfStockCount := outOfStockCount
    totalExpenses := totalExpenses
    grossProfit := grossProfit
    netProfit := netProfit
    grossMargin :=
      if 0 < totalRevenue then toFixed1 (grossProfit / totalRevenue * 100)
      else zeroRate
    netMargin :=
      if 0 < totalRevenue then toFixed1 (netProfit / totalRevenue * 100)
      else zeroRate }

/-! ## Generic lemmas about the list machinery -/

/-- Additive measure of a fold: if each step adds `c x` to the measure, the
fold adds the sum of the contributions. -/
theorem foldl_measure {α β M : Type} [AddCommMonoid M] (f : β → α → β)
    (μ : β → M) (c : α → M) (h : ∀ a x, μ (f a x) = μ a + c x) :
    ∀ (l : List α) (a : β), μ (l.foldl f a) = μ a + (l.map c).sum := by
  intro l
  induction l with
  | nil => intro a; simp
  | cons x l ih =>
      intro a
      simp only [List.foldl_cons, List.map_cons, List.sum_cons]
      rw [ih (f a x), h a x, add_assoc]

theorem sumBy_eq_sum_map {α : Type} (f : α → ℚ) (l : List α) :
    sumBy f l = (l.map f).sum := by
  have h := foldl_measure (fun s r => s + f r) id f (fun a x => rfl) l 0
  simpa [sumBy] using h

theorem lookupD_updateAssoc_same {β : Type} (m : List (String × β))
    (k : String) (d : β) (f : β → β) :
    lookupD (updateAssoc m k d f) k d = f (lookupD m k d) := by
  induction m with
  | nil => simp [updateAssoc, lookupD]
  | cons p rest ih =>
      by_cases hp : p.1 = k
      · simp [updateAssoc, lookupD, hp]
      · simp [updateAssoc, lookupD, hp, ih]

theorem lookupD_updateAssoc_other {β : Type} (m : List (String × β))
    {k q : String} (hqk : q ≠ k) (d dq : β) (f : β → β) :
    lookupD (updateAssoc m k d f) q dq = lookupD m q dq := by
  have hkq : ¬ k = q := fun h => hqk h.symm
  induction m with
  | nil => simp [updateAssoc, lookupD, hkq]
  | cons p rest ih =>
      by_cases hp : p.1 = k
      · have hpq : ¬ p.1 = q := fun h => hqk (by rw [← h]; exact hp)
        simp only [updateAssoc, if_pos hp, lookupD]
        rw [if_neg (hp ▸ hkq), if_neg hpq]
      · simp only [updateAssoc, if_neg hp, lookupD]
        by_cases hq : p.1 = q
        · rw [if_pos hq, if_pos hq]
        · rw [if_neg hq, if_neg hq, ih]

/-- Updating one key adds `c` to the sum of a measure of the values, provided
the creation default has measure `0` and the update adds `c`. -/
theorem sum_updateAssoc {β M : Type} [AddCommMonoid M] (μ : β → M)
    (m : List (String × β)) (k : String) (d : β) (f : β → β) (c : M)
    (hd : μ d = 0) (hf : ∀ v, μ (f v) = μ v + c) :
    ((updateAssoc m k d f).map (fun p => μ p.2)).sum
      = (m.map (fun p => μ p.2)).sum + c := by
  induction m with
  | nil => simp [updateAssoc, hf, hd]
  | cons p rest ih =>
      by_cases hp : p.1 = k
      · simp only [updateAssoc, if_pos hp, List.map_cons, List.sum_cons, hf]
        abel
      · simp only [updateAssoc, if_neg hp, List.map_cons, List.sum_cons, ih]
        abel

theorem sum_groupAccum {α β M : Type} [AddCommMonoid M] (μ : β → M)
    (key : α → String) (d : β) (step : α → β → β) (c : α → M)
    (hd : μ d = 0) (hstep : ∀ x v, μ (step x v) = μ v + c x)
    (xs : List α) (m0 : List (String × β)) :
    ((groupAccum key d step m0 xs).map (fun p => μ p.2)).sum
      = (m0.map (fun p => μ p.2)).sum + (xs.map c).sum := by
  unfold groupAccum
  exact foldl_measure _ (fun m => (m.map (fun p => μ p.2)).sum) c
    (fun m x => sum_updateAssoc μ m (key x) d (step x) (c x) hd (hstep x))
    xs m0

/-- The value a group fold leaves at key `k` is the step fold over exactly the
inputs whose key is `k`. -/
theorem lookupD_groupAccum {α β : Type} (key : α → String) (d : β)
    (step : α → β → β) (k : String) :
    ∀ (xs : List α) (m0 : List (String × β)),
      lookupD (groupAccum key d step m0 xs) k d
        = (xs.filter (fun x => key x = k)).foldl (fun v x => step x v)
            (lookupD m0 k d) := by
  intro xs
  induction xs with
  | nil => intro m0; simp [groupAccum]
  | cons x xs ih =>
      intro m0
      by_cases hx : key x = k
      · have h1 :
            lookupD (updateAssoc m0 (key x) d (step x)) k d
              = step x (lookupD m0 k d) := by
          rw [← hx]
          exact lookupD_updateAssoc_same m0 (key x) d (step x)
        simp only [groupAccum, List.foldl_cons] at ih ⊢
        rw [ih, h1]
        simp [List.filter_cons, hx]
      · have h1 :
            lookupD (updateAssoc m0 (key x) d (step x)) k d
              = lookupD m0 k d :=
          lookupD_updateAssoc_other m0 (fun h => hx h.symm) d d (step x)
        simp only [groupAccum, List.foldl_cons] at ih ⊢
        rw [ih, h1]
        simp [List.filter_cons, hx]

theorem keys_updateAssoc {β : Type} (m : List (String × β)) (k : String)
    (d : β) (f : β → β) :
    (updateAssoc m k d f).map Prod.fst
      = if k ∈ m.map Prod.fst then m.map Prod.fst
        else m.map Prod.fst ++ [k] := by
  induction m with
  | nil => simp [updateAssoc]
  | cons p rest ih =>
      by_cases hp : p.1 = k
      · simp [updateAssoc, hp]
      · have hne : ¬ k = p.1 := fun h => hp h.symm
        by_cases hmem : k ∈ rest.map Prod.fst
        · simp [updateAssoc, hp, ih, hmem, hne]
        · simp [updateAssoc, hp, ih, hmem, hne]

theorem keys_nodup_updateAssoc {β : Type} (m : List (String × β))
    (k : String) (d : β) (f : β → β) (h : (m.map Prod.fst).Nodup) :
    ((updateAssoc m k d f).map Prod.fst).Nodup := by
  rw [keys_updateAssoc]
  by_cases hmem : k ∈ m.map Prod.fst
  · simpa [hmem] using h
  · rw [if_neg hmem, List.nodup_append]
    refine ⟨h, List.nodup_singleton k, ?_⟩
    intro a ha hk
    rw [List.mem_singleton] at hk
    exact hmem (hk ▸ ha)

theorem keys_nodup_groupAccum {α β : Type} (key : α → String) (d : β)
    (step : α → β → β) :
    ∀ (xs : List α) (m0 : List (String × β)),
      (m0.map Prod.fst).Nodup →
        ((groupAccum key d step m0 xs).map Prod.fst).Nodup := by
  intro xs
  induction xs with
  | nil => intro m0 h; simpa [groupAccum] using h
  | cons x xs ih =>
      intro m0 h
      simp only [groupAccum, List.foldl_cons] at ih ⊢
      exact ih _ (keys_nodup_updateAssoc m0 (key x) d (step x) h)

theorem mem_keys_updateAssoc {β : Type} (m : List (String × β))
    (k q : String) (d : β) (f : β → β) :
    q ∈ (updateAssoc m k d f).map Prod.fst
      ↔ q ∈ m.map Prod.fst ∨ q = k := by
  rw [keys_updateAssoc]
  by_cases hmem : k ∈ m.map Prod.fst
  · simp only [hmem, if_pos]
    constructor
    · exact fun h => Or.inl h
    · rintro (h | h)
      · exact h
      · exact h ▸ hmem
  · simp [hmem]

theorem mem_keys_groupAccum {α β : Type} (key : α → String) (d : β)
    (step : α → β → β) (q : String) :
    ∀ (xs : List α) (m0 : List (String × β)),
      q ∈ (groupAccum key d step m0 xs).map Prod.fst
        ↔ q ∈ m0.map Prod.fst ∨ ∃ x ∈ xs, key x = q := by
  intro xs
  induction xs with
  | nil => intro m0; simp [groupAccum]
  | cons x xs ih =>
      intro m0
      simp only [groupAccum, List.foldl_cons] at ih ⊢
      rw [ih, mem_keys_updateAssoc]
      constructor
      · rintro ((h | h) | ⟨y, hy, hk⟩)
        · exact Or.inl h
        · exact Or.inr ⟨x, List.mem_cons_self x xs, h.symm⟩
        · exact Or.inr ⟨y, List.mem_cons_of_mem x hy, hk⟩
      · rintro (h | ⟨y, hy, hk⟩)
        · exact Or.inl (Or.inl h)
        · rcases List.mem_cons.mp hy with h1 | h1
          · exact Or.inl (Or.inr (h1 ▸ hk.symm))
          · exact Or.inr ⟨y, h1, hk⟩

/-- In a map with no duplicate keys, each entry is the lookup of its key. -/
theorem lookupD_of_mem {β : Type} {m : List (String × β)} {z : String × β}
    (hnd : (m.map Prod.fst).Nodup) (hz : z ∈ m) (d : β) :
    lookupD m z.1 d = z.2 := by
  induction m with
  | nil => cases hz
  | cons p rest ih =>
      rcases List.mem_cons.mp hz with h | h
      · subst h
        simp [lookupD]
      · have hnd2 := List.nodup_cons.mp hnd
        have hz1 : z.1 ∈ rest.map Prod.fst := List.mem_map_of_mem Prod.fst h
        have hne : ¬ p.1 = z.1 := fun he => hnd2.1 (he ▸ hz1)
        simp only [lookupD, if_neg hne]
        exact ih hnd2.2 h

/-! ## Lemmas about the stable sort -/

theorem perm_ins {α : Type} (le : α → α → Bool) (x : α) :
    ∀ l : List α, (ins le x l).Perm (x :: l) := by
  intro l
  induction l with
  | nil => simp [ins]
  | cons y ys ih =>
      by_cases h : le y x = true
      · simp only [ins, if_pos h]
        exact (ih.cons y).trans (List.Perm.swap x y ys)
      · simp [ins, h]

theorem foldl_ins_perm {α : Type} (le : α → α → Bool) :
    ∀ (xs acc : List α),
      (xs.foldl (fun a x => ins le x a) acc).Perm (xs ++ acc) := by
  intro xs
  induction xs with
  | nil => intro acc; simp
  | cons x xs ih =>
      intro acc
      simp only [List.foldl_cons, List.cons_append]
      have h1 := ih (ins le x acc)
      have h2 : (xs ++ ins le x acc).Perm (xs ++ x :: acc) :=
        List.Perm.append_left xs (perm_ins le x acc)
      have h3 : (xs ++ x :: acc).Perm (x :: (xs ++ acc)) := List.perm_middle
      exact (h1.trans h2).trans h3

/-- The stable sort permutes its input. -/
theorem jsSort_perm {α : Type} (le : α → α → Bool) (xs : List α) :
    (jsSort le xs).Perm xs := by
  have h := foldl_ins_perm le xs []
  simpa [jsSort] using h

theorem pairwise_ins {α : Type} (le : α → α → Bool)
    (htrans : ∀ a b c, le a b = true → le b c = true → le a c = true)
    (htot : ∀ a b, (le a b || le b a) = true) (x : α) :
    ∀ l : List α, l.Pairwise (fun a b => le a b = true) →
      (ins le x l).Pairwise (fun a b => le a b = true) := by
  intro l
  induction l with
  | nil => intro _; simp [ins]
  | cons y ys ih =>
      intro hp
      rcases List.pairwise_cons.mp hp with ⟨hy, hys⟩
      by_cases h : le y x = true
      · simp only [ins, if_pos h]
        refine List.pairwise_cons.mpr ⟨?_, ih hys⟩
        intro z hz
        rcases List.mem_cons.mp ((perm_ins le x ys).mem_iff.mp hz) with
          hzx | hzy
        · exact hzx ▸ h
        · exact hy z hzy
      · have hxy : le x y = true := by
          rcases Bool.or_eq_true_iff.mp (htot y x) with h1 | h1
          · exact absurd h1 h
          · exact h1
        simp only [ins, if_neg h]
        refine List.pairwise_cons.mpr ⟨?_, hp⟩
        intro z hz
        rcases List.mem_cons.mp hz with hzy | hzy
        · exact hzy ▸ hxy
        · exact htrans x y z hxy (hy z hzy)

/-- The stable sort orders its output by the comparator. -/
theorem pairwise_jsSort {α : Type} (le : α → α → Bool)
    (htrans : ∀ a b c, le a b = true → le b c = true → le a c = true)
    (htot : ∀ a b, (le a b || le b a) = true) (xs : List α) :
    (jsSort le xs).Pairwise (fun a b => le a b = true) := by
  suffices h : ∀ (xs acc : List α),
      acc.Pairwise (fun a b => le a b = true) →
        (xs.foldl (fun a x => ins le x a) acc).Pairwise
          (fun a b => le a b = true) by
    exact h xs [] List.Pairwise.nil
  intro xs
  induction xs with
  | nil => intro acc h; simpa using h
  | cons x xs ih =>
      intro acc h
      simp only [List.foldl_cons]
      exact ih (ins le x acc) (pairwise_ins le htrans htot x acc h)

/-! ## Lemmas about the string comparator -/

theorem charListLe_total : ∀ a b, (charListLe a b || charListLe b a) = true := by
  intro a
  induction a with
  | nil => intro b; cases b <;> simp [charListLe]
  | cons c cs ih =>
      intro b
      cases b with
      | nil => simp [charListLe]
      | cons d ds =>
          by_cases hcd : c = d
          · subst hcd
            simpa [charListLe] using ih ds
          · have hdc : ¬ d = c := fun h => hcd h.symm
            simp only [charListLe, if_neg hcd, if_neg hdc]
            rcases lt_or_gt_of_ne hcd with h | h
            · simp [h]
            · simp [h]

theorem charListLe_trans :
    ∀ a b c, charListLe a b = true → charListLe b c = true →
      charListLe a c = true := by
  intro a
  induction a with
  | nil => intro b c _ _; simp [charListLe]
  | cons x xs ih =>
      intro b c hab hbc
      cases b with
      | nil => simp [charListLe] at hab
      | cons y ys =>
          cases c with
          | nil => simp [charListLe] at hbc
          | cons z zs =>
              by_cases hxy : x = y
              · subst hxy
                simp only [charListLe, if_pos rfl] at hab
                by_cases hyz : x = z
                · subst hyz
                  simp only [charListLe, if_pos rfl] at hbc ⊢
                  exact ih ys zs hab hbc
                · simp only [charListLe, if_neg hyz] at hbc ⊢
                  exact hbc
              · simp only [charListLe, if_neg hxy] at hab
                have hxyl : x < y := of_decide_eq_true hab
                by_cases hyz : y = z
                · have hxzl : x < z := hyz ▸ hxyl
                  have hxz : ¬ x = z := ne_of_lt hxzl
                  simp only [charListLe, if_neg hxz]
                  exact decide_eq_true_eq.mpr hxzl
                · simp only [charListLe, if_neg hyz] at hbc
                  have hyzl : y < z := of_decide_eq_true hbc
                  have hxzl : x < z := lt_trans hxyl hyzl
                  have hxz : ¬ x = z := ne_of_lt hxzl
                  simp only [charListLe, if_neg hxz]
                  exact decide_eq_true_eq.mpr hxzl

theorem strLe_trans (a b c : String) (hab : strLe a b = true)
    (hbc : strLe b c = true) : strLe a c = true :=
  charListLe_trans a.data b.data c.data hab hbc

theorem strLe_total (a b : String) : (strLe a b || strLe b a) = true :=
  charListLe_total a.data b.data

/-! ## Miscellaneous helpers -/

/-- A fold that skips elements failing `p` is the fold over the filtered
list. -/
theorem foldl_skip {α β : Type} (p : α → Prop) [DecidablePred p]
    (f : β → α → β) :
    ∀ (xs : List α) (m0 : β),
      xs.foldl (fun m x => if p x then m else f m x) m0
        = (xs.filter (fun x => decide (¬ p x))).foldl f m0 := by
  intro xs
  induction xs with
  | nil => intro m0; simp
  | cons x xs ih =>
      intro m0
      by_cases hx : p x
      · simp [List.filter_cons, hx, ih]
      · simp [List.filter_cons, hx, ih]

/-- Two lists without duplicates and with the same members have the same
length. -/
theorem length_eq_of_nodup_mem_iff {l₁ l₂ : List String} (h₁ : l₁.Nodup)
    (h₂ : l₂.Nodup) (h : ∀ k, k ∈ l₁ ↔ k ∈ l₂) : l₁.length = l₂.length := by
  have hf : l₁.toFinset = l₂.toFinset := by
    apply Finset.ext
    intro a
    simpa using h a
  calc l₁.length = l₁.toFinset.card := (List.toFinset_card_of_nodup h₁).symm
    _ = l₂.toFinset.card := by rw [hf]
    _ = l₂.length := List.toFinset_card_of_nodup h₂

/-- `dedup` commutes with mapping an injective function. -/
theorem dedup_map_of_inj {α β : Type} [DecidableEq α] [DecidableEq β]
    (f : α → β) (hf : Function.Injective f) :
    ∀ l : List α, (l.map f).dedup = l.dedup.map f := by
  intro l
  induction l with
  | nil => simp
  | cons a l ih =>
      by_cases ha : a ∈ l
      · rw [List.map_cons, List.dedup_cons_of_mem (List.mem_map_of_mem f ha),
          List.dedup_cons_of_mem ha, ih]
      · have hfa : f a ∉ l.map f := by
          intro hmem
          rcases List.mem_map.mp hmem with ⟨b, hb, hba⟩
          exact ha ((hf hba) ▸ hb)
        rw [List.map_cons, List.dedup_cons_of_not_mem hfa,
          List.dedup_cons_of_not_mem ha, List.map_cons, ih]

/-- Any key reads as `0` from the initial status map. -/
theorem lookupD_initStatusCounts (k : String) :
    lookupD initStatusCounts k 0 = 0 := by
  simp only [initStatusCounts, lookupD]
  by_cases h1 : kPAID = k
  · simp [h1]
  · rw [if_neg h1]
    by_cases h2 : kPARTIAL = k
    · simp [h2]
    · rw [if_neg h2]
      by_cases h3 : kUNPAID = k
      · simp [h3]
      · rw [if_neg h3]
        by_cases h4 : kOVERDUE = k
        · simp [h4]
        · rw [if_neg h4]

/-! ## Projection lemmas for the engine results -/

theorem computePL_revenue (now : ℤ) (sales : List Sale)
    (expenses : List Expense) (returns : List Ret) :
    (computePL now sales expenses returns).revenue
      = sumBy (fun r => orZ r.total) sales := rfl

theorem computePL_collected (now : ℤ) (sales : List Sale)
    (expenses : List Expense) (returns : List Ret) :
    (computePL now sales expenses returns).collected
      = sumBy (fun r => orZ r.paid) sales := rfl

theorem computePL_cogs (now : ℤ) (sales : List Sale)
    (expenses : List Expense) (returns : List Ret) :
    (computePL now sales expenses returns).cogs
      = sumBy (fun r => orZ r.qty * orZ r.costPrice) sales := rfl

theorem computePL_grossProfit (now : ℤ) (sales : List Sale)
    (expenses : List Expense) (returns : List Ret) :
    (computePL now sales expenses returns).grossProfit
      = sumBy (fun r => orZ r.total) sales
          - sumBy (fun r => orZ r.qty * orZ r.costPrice) sales := rfl

theorem computePL_totalExpenses (now : ℤ) (sales : List Sale)
    (expenses : List Expense) (returns : List Ret) :
    (computePL now sales expenses returns).totalExpenses
      = sumBy (fun r => orZ r.amount) expenses := rfl

theorem computePL_netProfit (now : ℤ) (sales : List Sale)
    (expenses : List Expense) (returns : List Ret) :
    (computePL now sales expenses returns).netProfit
      = sumBy (fun r => orZ r.total) sales
          - sumBy (fun r => orZ r.qty * orZ r.costPrice) sales
          - sumBy (fun r => orZ r.amount) expenses := rfl

theorem computePL_collectionRate (now : ℤ) (sales : List Sale)
    (expenses : List Expense) (returns : List Ret) :
    (computePL now sales expenses returns).collectionRate
      = if 0 < sumBy (fun r => orZ r.total) sales
        then toFixed1 (sumBy (fun r => orZ r.paid) sales
          / sumBy (fun r => orZ r.total) sales * 100)
        else zeroRate := rfl

theorem computePL_grossMargin (now : ℤ) (sales : List Sale)
    (expenses : List Expense) (returns : List Ret) :
    (computePL now sales expenses returns).grossMargin
      = if 0 < sumBy (fun r => orZ r.total) sales
        then toFixed1 ((sumBy (fun r => orZ r.total) sales
            - sumBy (fun r => orZ r.qty * orZ r.costPrice) sales)
          / sumBy (fun r => orZ r.total) sales * 100)
        else zeroRate := rfl

theorem computePL_netMargin (now : ℤ) (sales : List Sale)
    (expenses : List Expense) (returns : List Ret) :
    (computePL now sales expenses returns).netMargin
      = if 0 < sumBy (fun r => orZ r.total) sales
        then toFixed1 ((sumBy (fun r => orZ r.total) sales
            - sumBy (fun r => orZ r.qty * orZ r.costPrice) sales
            - sumBy (fun r => orZ r.amount) expenses)
          / sumBy (fun r => orZ r.total) sales * 100)
        else zeroRate := rfl

theorem computePL_overdueDebt (now : ℤ) (sales : List Sale)
    (expenses : List Expense) (returns : List Ret) :
    (computePL now sales expenses returns).overdueDebt
      = sumBy (fun r => orZ r.balance)
          (sales.filter
            (fun s => isOverdue now s && decide (0 < orZ s.balance))) := rfl

theorem computePL_upcomingDebt (now : ℤ) (sales : List Sale)
    (expenses : List Expense) (returns : List Ret) :
    (computePL now sales expenses returns).upcomingDebt
      = sumBy (fun r => orZ r.balance)
          (sales.filter
            (fun s =>
              !isOverdue now s && decide (s.status ≠ kPAID)
                && decide (0 < orZ s.balance))) := rfl

theorem computePL_uniqueCustomers (now : ℤ) (sales : List Sale)
    (expenses : List Expense) (returns : List Ret) :
    (computePL now sales expenses returns).uniqueCustomers
      = ((sales.map Sale.customer).dedup).length := rfl

theorem computePL_statusCounts (now : ℤ) (sales : List Sale)
    (expenses : List Expense) (returns : List Ret) :
    (computePL now sales expenses returns).statusCounts
      = statusCountsOf sales := rfl

theorem computePL_categoryBreakdown (now : ℤ) (sales : List Sale)
    (expenses : List Expense) (returns : List Ret) :
    (computePL now sales expenses returns).categoryBreakdown
      = categorySorted sales := rfl

theorem computePL_paymentMethods (now : ℤ) (sales : List Sale)
    (expenses : List Expense) (returns : List Ret) :
    (computePL now sales expenses returns).paymentMethods
      = paymentMethodsSorted (sumBy (fun r => orZ r.paid) sales) sales := rfl

theorem computePL_expenseBreakdown (now : ℤ) (sales : List Sale)
    (expenses : List Expense) (returns : List Ret) :
    (computePL now sales expenses returns).expenseBreakdown
      = expenseSorted (sumBy (fun r => orZ r.amount) expenses) expenses := rfl

theorem computePL_topCustomers (now : ℤ) (sales : List Sale)
    (expenses : List Expense) (returns : List Ret) :
    (computePL now sales expenses returns).topCustomers
      = topCustomersOf sales := rfl

theorem computePL_dailyTrend (now : ℤ) (sales : List Sale)
    (expenses : List Expense) (returns : List Ret) :
    (computePL now sales expenses returns).dailyTrend
      = trendSorted sales := rfl

theorem kpi_overdueCount (now : ℤ) (today : String) (sales : List Sale)
    (expenses : List Expense) (inventory : List InvItem) :
    (computeDashboardKPIs now today sales expenses
        inventory).overdueCount
      = (sales.filter (kpiOverdue now)).length := rfl

theorem kpi_lowStockCount (now : ℤ) (today : String) (sales : List Sale)
    (expenses : List Expense) (inventory : List InvItem) :
    (computeDashboardKPIs now today sales expenses
        inventory).lowStockCount
      = (inventory.filter
          (fun p => decide (orZ p.stock ≤ orD p.reorderLevel 5))).length :=
  rfl

theorem kpi_outOfStockCount (now : ℤ) (today : String) (sales : List Sale)
    (expenses : List Expense) (inventory : List InvItem) :
    (computeDashboardKPIs now today sales expenses
        inventory).outOfStockCount
      = (inventory.filter (fun p => decide (orZ p.stock = 0))).length := rfl

/-! ## Bridge lemmas tying the two overdue predicates together -/

theorem kpiOverdue_eq (now : ℤ) (s : Sale) :
    kpiOverdue now s = (isOverdue now s && decide (0 < orZ s.balance)) := by
  by_cases hs : s.status = kPAID
  · simp [kpiOverdue, isOverdue, hs]
  · cases hd : s.dueDate with
    | none => simp [kpiOverdue, isOverdue, hs, hd]
    | some d => simp [kpiOverdue, isOverdue, hs, hd]

theorem isOverdue_iff (now : ℤ) (s : Sale) :
    isOverdue now s = true
      ↔ s.status ≠ kPAID ∧ ∃ d, s.dueDate = some d ∧ d < now := by
  constructor
  · intro h
    by_cases hs : s.status = kPAID
    · simp [isOverdue, hs] at h
    · cases hd : s.dueDate with
      | none => simp [isOverdue, hs, hd] at h
      | some d =>
          simp only [isOverdue, if_neg hs, hd, decide_eq_true_eq] at h
          exact ⟨hs, d, rfl, h⟩
  · rintro ⟨hs, d, hd, hlt⟩
    simp [isOverdue, hs, hd, hlt]

/-! ## Small counting helpers -/

theorem sum_map_one {α : Type} (l : List α) :
    (l.map (fun _ => (1 : ℕ))).sum = l.length := by
  induction l with
  | nil => rfl
  | cons x l ih => simp [ih, Nat.add_comm]

theorem dailyTrendMap_eq (sales : List Sale) :
    dailyTrendMap sales
      = groupAccum saleDay trendAcc0 trendStep []
          (sales.filter (fun s => decide (¬ saleDay s = emptyStr))) := by
  unfold dailyTrendMap groupAccum
  exact foldl_skip (fun s => saleDay s = emptyStr)
    (fun m s => updateAssoc m (saleDay s) trendAcc0 (trendStep s)) sales []

/-! ## Claim theorems -/

/-- C1.  A sale is classified overdue by `computePL` iff its status is not
`PAID`, it has a due date, and that due date is strictly before the
evaluation instant (a sale with no due date is never overdue regardless of
status); `overdueDebt` sums the balances of overdue sales with positive
balance, `upcomingDebt` sums the balances of non-overdue, non-`PAID` sales
with positive balance, and the dashboard's `overdueCount` counts sales
satisfying the same overdue predicate restricted to positive balance. -/
theorem overdue_classification (now : ℤ) (today : String) (sales : List Sale)
    (expenses : List Expense) (returns : List Ret)
    (inventory : List InvItem) :
    (∀ s : Sale,
        isOverdue now s = true
          ↔ s.status ≠ kPAID ∧ ∃ d, s.dueDate = some d ∧ d < now)
    ∧ (computePL now sales expenses returns).overdueDebt
        = ((sales.filter
              (fun s => isOverdue now s && decide (0 < orZ s.balance))).map
            (fun s => orZ s.balance)).sum
    ∧ (computePL now sales expenses returns).upcomingDebt
        = ((sales.filter
              (fun s =>
                !isOverdue now s && decide (s.status ≠ kPAID)
                  && decide (0 < orZ s.balance))).map
            (fun s => orZ s.balance)).sum
    ∧ (computeDashboardKPIs now today sales expenses inventory).overdueCount
        = sales.countP
            (fun s => isOverdue now s && decide (0 < orZ s.balance)) := by
  refine ⟨isOverdue_iff now, ?_, ?_, ?_⟩
  · rw [computePL_overdueDebt, sumBy_eq_sum_map]
  · rw [computePL_upcomingDebt, sumBy_eq_sum_map]
  · rw [kpi_overdueCount, List.countP_eq_length_filter]
    congr 1
    exact List.filter_congr (fun s _ => kpiOverdue_eq now s)

/-- C2.  `grossProfit = revenue - cogs` and
`netProfit = grossProfit - totalExpenses` hold exactly for all inputs, with
`revenue`, `cogs` and `totalExpenses` the zero-defaulted sums; on empty
inputs every numeric metric is `0` and the three rate strings are "0.0". -/
theorem profit_identities (now : ℤ) (sales : List Sale)
    (expenses : List Expense) (returns : List Ret) :
    ((computePL now sales expenses returns).grossProfit
        = (computePL now sales expenses returns).revenue
            - (computePL now sales expenses returns).cogs)
    ∧ ((computePL now sales expenses returns).netProfit
        = (computePL now sales expenses returns).grossProfit
            - (computePL now sales expenses returns).totalExpenses)
    ∧ (computePL now sales expenses returns).revenue
        = (sales.map (fun s => orZ s.total)).sum
    ∧ (computePL now sales expenses returns).cogs
        = (sales.map (fun s => orZ s.qty * orZ s.costPrice)).sum
    ∧ (computePL now sales expenses returns).totalExpenses
        = (expenses.map (fun e => orZ e.amount)).sum
    ∧ (computePL now [] [] []).revenue = 0
    ∧ (computePL now [] [] []).collected = 0
    ∧ (computePL now [] [] []).cogs = 0
    ∧ (computePL now [] [] []).grossProfit = 0
    ∧ (computePL now [] [] []).totalExpenses = 0
    ∧ (computePL now [] [] []).netProfit = 0
    ∧ (computePL now [] [] []).refunds = 0
    ∧ (computePL now [] [] []).outstanding = 0
    ∧ (computePL now [] [] []).overdueDebt = 0
    ∧ (computePL now [] [] []).upcomingDebt = 0
    ∧ (computePL now [] [] []).salesCount = 0
    ∧ (computePL now [] [] []).uniqueCustomers = 0
    ∧ (computePL now [] [] []).unitsSold = 0
    ∧ (computePL now [] [] []).collectionRate = zeroRate
    ∧ (computePL now [] [] []).grossMargin = zeroRate
    ∧ (computePL now [] [] []).netMargin = zeroRate := by
  refine ⟨rfl, rfl, ?_, ?_, ?_, ?_⟩
  · rw [computePL_revenue, sumBy_eq_sum_map]
  · rw [computePL_cogs, sumBy_eq_sum_map]
  · rw [computePL_totalExpenses, sumBy_eq_sum_map]
  · refine ⟨rfl, rfl, rfl, ?_, rfl, ?_, rfl, rfl, rfl, rfl, rfl, rfl, rfl,
      ?_, ?_, ?_⟩
    · rw [computePL_grossProfit]
      norm_num [sumBy]
    · rw [computePL_netProfit]
      norm_num [sumBy]
    · rw [computePL_collectionRate]
      norm_num [sumBy]
    · rw [computePL_grossMargin]
      norm_num [sumBy]
    · rw [computePL_netMargin]
      norm_num [sumBy]

/-! ### Breakdown reconciliation (C3) -/

theorem sum_categorySorted_revenue (sales : List Sale) :
    ((categorySorted sales).map CatEntry.revenue).sum
      = (sales.map (fun s => orZ s.total)).sum := by
  have h1 : (categorySorted sales).map CatEntry.revenue
      = (jsSort (fun a b => decide (b.2.revenue ≤ a.2.revenue))
          (categoryBreakdownMap sales)).map
          (fun p : String × CatAcc => p.2.revenue) := by
    unfold categorySorted
    rw [List.map_map]
    rfl
  rw [h1, ((jsSort_perm (fun a b => decide (b.2.revenue ≤ a.2.revenue))
      (categoryBreakdownMap sales)).map
      (fun p : String × CatAcc => p.2.revenue)).sum_eq]
  have hgroup := sum_groupAccum CatAcc.revenue saleCategory catAcc0 catStep
    (fun s => orZ s.total) rfl (fun x v => rfl) sales []
  unfold categoryBreakdownMap
  simpa using hgroup

theorem sum_paymentMethods_amount (collected : ℚ) (sales : List Sale) :
    ((paymentMethodsSorted collected sales).map PayEntry.amount).sum
      = (sales.map (fun s => orZ s.paid)).sum := by
  have h1 : (paymentMethodsSorted collected sales).map PayEntry.amount
      = (jsSort (fun a b => decide (b.2 ≤ a.2))
          (paymentMethodsMap sales)).map (fun p : String × ℚ => p.2) := by
    unfold paymentMethodsSorted
    rw [List.map_map]
    rfl
  rw [h1, ((jsSort_perm (fun a b => decide (b.2 ≤ a.2))
      (paymentMethodsMap sales)).map (fun p : String × ℚ => p.2)).sum_eq]
  have hgroup := sum_groupAccum id saleMethod 0 (fun s v => v + orZ s.paid)
    (fun s => orZ s.paid) rfl (fun x v => rfl) sales []
  unfold paymentMethodsMap
  simpa using hgroup

theorem sum_expenseSorted_amount (totalExp : ℚ) (expenses : List Expense) :
    ((expenseSorted totalExp expenses).map ExpEntry.amount).sum
      = (expenses.map (fun e => orZ e.amount)).sum := by
  have h1 : (expenseSorted totalExp expenses).map ExpEntry.amount
      = (jsSort (fun a b => decide (b.2 ≤ a.2))
          (expenseByCategory expenses)).map (fun p : String × ℚ => p.2) := by
    unfold expenseSorted
    rw [List.map_map]
    rfl
  rw [h1, ((jsSort_perm (fun a b => decide (b.2 ≤ a.2))
      (expenseByCategory expenses)).map (fun p : String × ℚ => p.2)).sum_eq]
  have hgroup := sum_groupAccum id (fun e : Expense => jsKey e.category) 0
    (fun e v => v + orZ e.amount) (fun e => orZ e.amount) rfl
    (fun x v => rfl) expenses []
  unfold expenseByCategory
  simpa using hgroup

/-- C3.  The three breakdowns reconcile with the global totals: category
revenues sum to `revenue`, payment-method amounts sum to `collected`, and
expense-category amounts sum to `totalExpenses`. -/
theorem breakdowns_reconcile (now : ℤ) (sales : List Sale)
    (expenses : List Expense) (returns : List Ret) :
    ((computePL now sales expenses returns).categoryBreakdown.map
        CatEntry.revenue).sum
      = (computePL now sales expenses returns).revenue
    ∧ ((computePL now sales expenses returns).paymentMethods.map
        PayEntry.amount).sum
      = (computePL now sales expenses returns).collected
    ∧ ((computePL now sales expenses returns).expenseBreakdown.map
        ExpEntry.amount).sum
      = (computePL now sales expenses returns).totalExpenses := by
  refine ⟨?_, ?_, ?_⟩
  · rw [computePL_categoryBreakdown, computePL_revenue, sumBy_eq_sum_map]
    exact sum_categorySorted_revenue sales
  · rw [computePL_paymentMethods, computePL_collected, sumBy_eq_sum_map]
    exact sum_paymentMethods_amount _ sales
  · rw [computePL_expenseBreakdown, computePL_totalExpenses,
      sumBy_eq_sum_map]
    exact sum_expenseSorted_amount _ expenses

/-! ### Status counts (C8) -/

/-- C8.  `statusCounts` always contains the four keys `PAID`, `PARTIAL`,
`UNPAID`, `OVERDUE`; each sale increments the entry of its own status value
(unrecognised statuses get a key of their own name), so the map's values sum
to `salesCount` and the entry at any key `k` counts the sales whose status
is exactly `k`. -/
theorem statusCounts_spec (now : ℤ) (sales : List Sale)
    (expenses : List Expense) (returns : List Ret) :
    kPAID ∈ (computePL now sales expenses returns).statusCounts.map Prod.fst
    ∧ kPARTIAL
        ∈ (computePL now sales expenses returns).statusCounts.map Prod.fst
    ∧ kUNPAID
        ∈ (computePL now sales expenses returns).statusCounts.map Prod.fst
    ∧ kOVERDUE
        ∈ (computePL now sales expenses returns).statusCounts.map Prod.fst
    ∧ ((computePL now sales expenses returns).statusCounts.map
        Prod.snd).sum
      = (computePL now sales expenses returns).salesCount
    ∧ ∀ k : String,
        lookupD (computePL now sales expenses returns).statusCounts k 0
          = sales.countP (fun s => decide (s.status = k)) := by
  rw [computePL_statusCounts]
  have hmem : ∀ k : String, k ∈ initStatusCounts.map Prod.fst →
      k ∈ (statusCountsOf sales).map Prod.fst := by
    intro k hk
    unfold statusCountsOf
    exact (mem_keys_groupAccum Sale.status 0 (fun _ v => v + 1) k sales
      initStatusCounts).mpr (Or.inl hk)
  refine ⟨hmem kPAID (by simp [initStatusCounts]),
    hmem kPARTIAL (by simp [initStatusCounts]),
    hmem kUNPAID (by simp [initStatusCounts]),
    hmem kOVERDUE (by simp [initStatusCounts]), ?_, ?_⟩
  · have h := sum_groupAccum (M := ℕ) id Sale.status 0 (fun _ v => v + 1)
      (fun _ => 1) rfl (fun x v => rfl) sales initStatusCounts
    unfold statusCountsOf
    have hinit : (initStatusCounts.map (fun p => id p.2)).sum = 0 := rfl
    rw [show (computePL now sales expenses returns).salesCount = sales.length
        from rfl]
    calc ((groupAccum Sale.status 0 (fun _ v => v + 1) initStatusCounts
            sales).map Prod.snd).sum
        = ((groupAccum Sale.status 0 (fun _ v => v + 1) initStatusCounts
            sales).map (fun p => id p.2)).sum := rfl
      _ = (initStatusCounts.map (fun p => id p.2)).sum
            + (sales.map (fun _ => 1)).sum := h
      _ = sales.length := by rw [hinit, sum_map_one, Nat.zero_add]
  · intro k
    unfold statusCountsOf
    rw [lookupD_groupAccum Sale.status 0 (fun _ v => v + 1) k sales
      initStatusCounts, lookupD_initStatusCounts,
      List.countP_eq_length_filter]
    have h := foldl_measure (M := ℕ) (fun v (_ : Sale) => v + 1) id
      (fun _ => 1) (fun a x => rfl)
      (sales.filter (fun s => decide (s.status = k))) 0
    simpa [sum_map_one] using h

/-! ### Unique customers (C9): the source applies no "Walk-in" default -/

def exWalkIn : Sale := { customer := some walkIn }

def exNoCustomer : Sale := {}

/-- C9 counterexample.  On one sale whose customer is literally "Walk-in"
and one sale with no customer field, `computePL` reports two distinct
customers, not one: `uniqueCustomers` is computed from the raw `customer`
property, without the "Walk-in" fallback. -/
theorem uniqueCustomers_cex :
    (computePL 0 [exWalkIn, exNoCustomer] [] []).uniqueCustomers = 2
    ∧ ¬ (computePL 0 [exWalkIn, exNoCustomer] [] []).uniqueCustomers = 1 := by
  refine ⟨?_, ?_⟩ <;> rw [computePL_uniqueCustomers] <;> decide

/-- C9 amended.  `uniqueCustomers` is the number of distinct raw `customer`
values (a missing customer is its own distinct value rather than "Walk-in");
when every sale carries an explicit non-empty customer name it coincides
with the number of distinct defaulted customer names. -/
theorem uniqueCustomers_amended (now : ℤ) (sales : List Sale)
    (expenses : List Expense) (returns : List Ret) :
    (computePL now sales expenses returns).uniqueCustomers
      = ((sales.map Sale.customer).dedup).length
    ∧ ((∀ s ∈ sales, ∃ c, s.customer = some c ∧ c ≠ emptyStr) →
        (computePL now sales expenses returns).uniqueCustomers
          = ((sales.map saleCustomer).dedup).length) := by
  refine ⟨computePL_uniqueCustomers now sales expenses returns, ?_⟩
  intro h
  rw [computePL_uniqueCustomers]
  have hmap : sales.map Sale.customer = (sales.map saleCustomer).map some := by
    rw [List.map_map]
    apply List.map_congr_left
    intro s hs
    rcases h s hs with ⟨c, hc, hcne⟩
    simp [saleCustomer, orStr, hc, hcne]
  rw [hmap, dedup_map_of_inj some (fun a b hab => Option.some.inj hab),
    List.length_map]

theorem uniqueCustomers_amended_w :
    (computePL 0 [exWalkIn] [] []).uniqueCustomers
      = ((([exWalkIn] : List Sale).map saleCustomer).dedup).length := by
  refine (uniqueCustomers_amended 0 [exWalkIn] [] []).2 ?_
  intro s hs
  rw [List.mem_singleton] at hs
  subst hs
  exact ⟨walkIn, rfl, by decide⟩

/-! ### Stock KPIs (C7): `reorderLevel || 5` also defaults on an explicit 0 -/

def exZeroReorder : InvItem := { stock := some 3, reorderLevel := some 0 }

/-- C7 counterexample.  An item with an explicit `reorderLevel` of `0` and
stock `3` IS counted by `lowStockCount` (because `p.reorderLevel || 5`
treats `0` as falsy and substitutes `5`), whereas the claim's
absent-only-default predicate would not count it. -/
theorem lowStock_cex :
    (computeDashboardKPIs 0 emptyStr [] [] [exZeroReorder]).lowStockCount = 1
    ∧ ([exZeroReorder].filter
        (fun p => decide (orZ p.stock ≤ p.reorderLevel.getD 5))).length
      = 0 := by
  refine ⟨?_, by decide⟩
  rw [kpi_lowStockCount]
  decide

/-- C7 amended.  `lowStockCount` counts the items with
`stock <= (reorderLevel || 5)`: the fallback `5` applies when `reorderLevel`
is absent OR explicitly `0` (so an item with `reorderLevel = 0` and positive
stock up to `5` is counted); `outOfStockCount` counts items whose
zero-defaulted stock is exactly `0` (absent stock counts as `0`). -/
theorem stock_counts_amended (now : ℤ) (today : String) (sales : List Sale)
    (expenses : List Expense) (inventory : List InvItem) :
    (computeDashboardKPIs now today sales expenses inventory).lowStockCount
      = inventory.countP
          (fun p => decide (orZ p.stock ≤ orD p.reorderLevel 5))
    ∧ (∀ p : InvItem,
        orZ p.stock ≤ orD p.reorderLevel 5
          ↔ ((p.reorderLevel = none ∨ p.reorderLevel = some 0)
                ∧ orZ p.stock ≤ 5)
            ∨ ∃ x, p.reorderLevel = some x ∧ x ≠ 0 ∧ orZ p.stock ≤ x)
    ∧ (computeDashboardKPIs now today sales expenses
          inventory).outOfStockCount
        = inventory.countP (fun p => decide (orZ p.stock = 0))
    ∧ (∀ p : InvItem,
        orZ p.stock = 0 ↔ p.stock = none ∨ p.stock = some 0) := by
  refine ⟨?_, ?_, ?_, ?_⟩
  · rw [kpi_lowStockCount, List.countP_eq_length_filter]
  · intro p
    cases hr : p.reorderLevel with
    | none => simp [orD, hr]
    | some x =>
        by_cases hx : x = 0
        · subst hx
          simp [orD, hr]
        · simp [orD, hr, hx]
  · rw [kpi_outOfStockCount, List.countP_eq_length_filter]
  · intro p
    cases hs : p.stock with
    | none => simp [orZ, hs]
    | some x => simp [orZ, hs]

/-! ### Grouping keys (C4): sales have documented fallbacks, expenses do not -/

/-- The sorted image of a group fold is keyed exactly by the key images of
the inputs. -/
theorem keys_cover {α β : Type} (key : α → String) (d : β)
    (step : α → β → β) (xs : List α)
    (le : String × β → String × β → Bool) :
    (∀ p ∈ jsSort le (groupAccum key d step [] xs), ∃ x ∈ xs, p.1 = key x)
    ∧ (∀ x ∈ xs,
        ∃ p ∈ jsSort le (groupAccum key d step [] xs), p.1 = key x) := by
  constructor
  · intro p hp
    have hm : p ∈ groupAccum key d step [] xs :=
      (jsSort_perm le (groupAccum key d step [] xs)).mem_iff.mp hp
    have hk : p.1 ∈ (groupAccum key d step [] xs).map Prod.fst :=
      List.mem_map_of_mem Prod.fst hm
    rcases (mem_keys_groupAccum key d step p.1 xs []).mp hk with
      h | ⟨x, hx, hxk⟩
    · simp at h
    · exact ⟨x, hx, hxk.symm⟩
  · intro x hx
    have hk : key x ∈ (groupAccum key d step [] xs).map Prod.fst :=
      (mem_keys_groupAccum key d step (key x) xs []).mpr
        (Or.inr ⟨x, hx, rfl⟩)
    rcases List.mem_map.mp hk with ⟨p, hp, hpk⟩
    exact ⟨p,
      (jsSort_perm le (groupAccum key d step [] xs)).mem_iff.mpr hp, hpk⟩

def exNoCatExpense : Expense := { amount := some 5 }

/-- C4 counterexample.  An expense with no category is grouped under the
ad-hoc key "undefined" (JS coerces the absent property to that string when
it is used as an object key); it is not replaced by any of the documented
fallback labels. -/
theorem expense_fallback_cex :
    (computePL 0 [] [exNoCatExpense] []).expenseBreakdown.map
        ExpEntry.category
      = [undefinedKey]
    ∧ undefinedKey ≠ uncategorised ∧ undefinedKey ≠ walkIn
    ∧ undefinedKey ≠ cashLabel := by
  refine ⟨?_, by decide, by decide, by decide⟩
  rw [computePL_expenseBreakdown]
  decide

/-- C4 amended.  Before grouping, a sale's missing category becomes
"Uncategorised", a missing customer becomes "Walk-in" and a missing payment
method becomes "Cash" (`saleCategory`, `saleCustomer`, `saleMethod`), and
the groups are keyed exactly by those defaulted values; an expense's missing
category, however, is NOT replaced by a documented label: the expense group
key is the raw property, with an absent category yielding the ad-hoc key
"undefined" (`jsKey`). -/
theorem grouping_fallbacks_amended (now : ℤ) (sales : List Sale)
    (expenses : List Expense) (returns : List Ret) :
    (∀ g ∈ (computePL now sales expenses returns).categoryBreakdown,
        ∃ s ∈ sales, g.name = saleCategory s)
    ∧ (∀ s ∈ sales,
        ∃ g ∈ (computePL now sales expenses returns).categoryBreakdown,
          g.name = saleCategory s)
    ∧ (∀ g ∈ (computePL now sales expenses returns).paymentMethods,
        ∃ s ∈ sales, g.method = saleMethod s)
    ∧ (∀ s ∈ sales,
        ∃ g ∈ (computePL now sales expenses returns).paymentMethods,
          g.method = saleMethod s)
    ∧ (∀ g ∈ (computePL now sales expenses returns).topCustomers,
        ∃ s ∈ sales, g.name = saleCustomer s)
    ∧ (∀ g ∈ (computePL now sales expenses returns).expenseBreakdown,
        ∃ e ∈ expenses, g.category = jsKey e.category)
    ∧ (∀ e ∈ expenses,
        ∃ g ∈ (computePL now sales expenses returns).expenseBreakdown,
          g.category = jsKey e.category) := by
  rw [computePL_categoryBreakdown, computePL_paymentMethods,
    computePL_topCustomers, computePL_expenseBreakdown]
  have hcat := keys_cover saleCategory catAcc0 catStep sales
    (fun a b => decide (b.2.revenue ≤ a.2.revenue))
  have hpay := keys_cover saleMethod 0 (fun s v => v + orZ s.paid) sales
    (fun a b => decide (b.2 ≤ a.2))
  have hcust := keys_cover saleCustomer custAcc0 custStep sales
    (fun a b => decide (b.2.revenue ≤ a.2.revenue))
  have hexp := keys_cover (fun e : Expense => jsKey e.category) 0
    (fun e v => v + orZ e.amount) expenses (fun a b => decide (b.2 ≤ a.2))
  refine ⟨?_, ?_, ?_, ?_, ?_, ?_, ?_⟩
  · intro g hg
    unfold categorySorted at hg
    rcases List.mem_map.mp hg with ⟨p, hp, hgp⟩
    rcases hcat.1 p (by unfold categoryBreakdownMap at hp; exact hp) with
      ⟨s, hs, hk⟩
    exact ⟨s, hs, hgp ▸ hk⟩
  · intro s hs
    rcases hcat.2 s hs with ⟨p, hp, hk⟩
    refine ⟨⟨p.1, p.2.revenue, p.2.cogs, p.2.profit, p.2.qty, p.2.count,
      if 0 < p.2.revenue then toFixed1 (p.2.profit / p.2.revenue * 100)
      else zeroRate⟩, ?_, hk⟩
    unfold categorySorted categoryBreakdownMap
    exact List.mem_map_of_mem _ hp
  · intro g hg
    unfold paymentMethodsSorted at hg
    rcases List.mem_map.mp hg with ⟨p, hp, hgp⟩
    rcases hpay.1 p (by unfold paymentMethodsMap at hp; exact hp) with
      ⟨s, hs, hk⟩
    exact ⟨s, hs, hgp ▸ hk⟩
  · intro s hs
    rcases hpay.2 s hs with ⟨p, hp, hk⟩
    refine ⟨⟨p.1, p.2,
      if 0 < sumBy (fun r => orZ r.paid) sales
      then toFixed1 (p.2 / sumBy (fun r => orZ r.paid) sales * 100)
      else zeroRate⟩, ?_, hk⟩
    unfold paymentMethodsSorted paymentMethodsMap
    exact List.mem_map_of_mem _ hp
  · intro g hg
    unfold topCustomersOf at hg
    rcases List.mem_map.mp hg with ⟨p, hp, hgp⟩
    have hp2 : p ∈ jsSort (fun a b => decide (b.2.revenue ≤ a.2.revenue))
        (customerRevenue sales) := List.take_subset 10 _ hp
    rcases hcust.1 p (by unfold customerRevenue at hp2; exact hp2) with
      ⟨s, hs, hk⟩
    exact ⟨s, hs, hgp ▸ hk⟩
  · intro g hg
    unfold expenseSorted at hg
    rcases List.mem_map.mp hg with ⟨p, hp, hgp⟩
    rcases hexp.1 p (by unfold expenseByCategory at hp; exact hp) with
      ⟨e, he, hk⟩
    exact ⟨e, he, hgp ▸ hk⟩
  · intro e he
    rcases hexp.2 e he with ⟨p, hp, hk⟩
    refine ⟨⟨p.1, p.2,
      if 0 < sumBy (fun r => orZ r.amount) expenses
      then toFixed1 (p.2 / sumBy (fun r => orZ r.amount) expenses * 100)
      else zeroRate⟩, ?_, hk⟩
    unfold expenseSorted expenseByCategory
    exact List.mem_map_of_mem _ hp

theorem grouping_fallbacks_amended_w :
    ∃ g ∈ (computePL 0 [exNoCustomer] [] []).categoryBreakdown,
      g.name = saleCategory exNoCustomer :=
  (grouping_fallbacks_amended 0 [exNoCustomer] [] []).2.1 exNoCustomer
    (List.mem_singleton.mpr rfl)

/-! ### Daily trend (C5, C10) -/

theorem lookupD_nil {β : Type} (k : String) (d : β) :
    lookupD ([] : List (String × β)) k d = d := rfl

/-- Every entry of the sorted daily trend carries a non-empty day key and
holds exactly the sums over the sales of that day; and every sale with a
non-empty day has an entry. -/
theorem trendSorted_entries (sales : List Sale) :
    (∀ g ∈ trendSorted sales,
        g.date ≠ emptyStr
        ∧ g.revenue
            = ((sales.filter (fun s => decide (saleDay s = g.date))).map
                (fun s => orZ s.total)).sum
        ∧ g.profit
            = ((sales.filter (fun s => decide (saleDay s = g.date))).map
                (fun s => orZ s.total - orZ s.qty * orZ s.costPrice)).sum)
    ∧ (∀ s ∈ sales, saleDay s ≠ emptyStr →
        saleDay s ∈ (trendSorted sales).map TrendEntry.date) := by
  have hmapEq := dailyTrendMap_eq sales
  have hknd : ((groupAccum saleDay trendAcc0 trendStep []
      (sales.filter (fun s => decide (¬ saleDay s = emptyStr)))).map
        Prod.fst).Nodup :=
    keys_nodup_groupAccum saleDay trendAcc0 trendStep _ [] (by simp)
  constructor
  · intro g hg
    unfold trendSorted at hg
    rcases List.mem_map.mp hg with ⟨p, hp, hgp⟩
    have hpm : p ∈ groupAccum saleDay trendAcc0 trendStep []
        (sales.filter (fun s => decide (¬ saleDay s = emptyStr))) := by
      rw [← hmapEq]
      exact (jsSort_perm (fun a b => strLe a.1 b.1)
        (dailyTrendMap sales)).mem_iff.mp hp
    have hk : p.1 ∈ (groupAccum saleDay trendAcc0 trendStep []
        (sales.filter (fun s => decide (¬ saleDay s = emptyStr)))).map
          Prod.fst := List.mem_map_of_mem Prod.fst hpm
    rcases (mem_keys_groupAccum saleDay trendAcc0 trendStep p.1 _ []).mp hk
      with h | ⟨s0, hs0, hs0k⟩
    · simp at h
    have hs0f := List.mem_filter.mp hs0
    have hne : p.1 ≠ emptyStr := by
      rw [← hs0k]
      exact of_decide_eq_true hs0f.2
    have hval := lookupD_of_mem hknd hpm trendAcc0
    rw [lookupD_groupAccum saleDay trendAcc0 trendStep p.1 _ [],
      lookupD_nil] at hval
    have hff : (sales.filter
          (fun s => decide (¬ saleDay s = emptyStr))).filter
            (fun x => decide (saleDay x = p.1))
        = sales.filter (fun s => decide (saleDay s = p.1)) := by
      rw [List.filter_filter]
      apply List.filter_congr
      intro s _
      by_cases hsd : saleDay s = p.1
      · simp [hsd, hne]
      · simp [hsd]
    rw [hff] at hval
    have hrev := foldl_measure (fun v (x : Sale) => trendStep x v)
      TrendAcc.revenue (fun s => orZ s.total) (fun a x => rfl)
      (sales.filter (fun s => decide (saleDay s = p.1))) trendAcc0
    have hpro := foldl_measure (fun v (x : Sale) => trendStep x v)
      TrendAcc.profit (fun s => orZ s.total - orZ s.qty * orZ s.costPrice)
      (fun a x => rfl)
      (sales.filter (fun s => decide (saleDay s = p.1))) trendAcc0
    subst hgp
    refine ⟨hne, ?_, ?_⟩
    · show p.2.revenue = _
      rw [← hval, hrev]
      show (0 : ℚ) + _ = _
      rw [zero_add]
    · show p.2.profit = _
      rw [← hval, hpro]
      show (0 : ℚ) + _ = _
      rw [zero_add]
  · intro s hs hneq
    have hsf : s ∈ sales.filter (fun s => decide (¬ saleDay s = emptyStr)) :=
      List.mem_filter.mpr ⟨hs, decide_eq_true hneq⟩
    have hk : saleDay s ∈ (groupAccum saleDay trendAcc0 trendStep []
        (sales.filter (fun s => decide (¬ saleDay s = emptyStr)))).map
          Prod.fst :=
      (mem_keys_groupAccum saleDay trendAcc0 trendStep (saleDay s) _
        []).mpr (Or.inr ⟨s, hsf, rfl⟩)
    rcases List.mem_map.mp hk with ⟨p, hpm, hpk⟩
    have hp : p ∈ jsSort (fun a b => strLe a.1 b.1) (dailyTrendMap sales) := by
      apply (jsSort_perm (fun a b => strLe a.1 b.1)
        (dailyTrendMap sales)).mem_iff.mpr
      rw [hmapEq]
      exact hpm
    refine List.mem_map.mpr ⟨⟨p.1, p.2.revenue, p.2.profit⟩, ?_, hpk⟩
    unfold trendSorted
    exact List.mem_map_of_mem _ hp

def dayA : String := "2024-03-01"

def tsA1 : String := "2024-03-01T08:00"

def tsA2 : String := "2024-03-01T23:00"

def exDayS1 : Sale := { date := some tsA1, total := some 100 }

def exDayS2 : Sale := { date := some tsA2, total := some 50 }

/-- C5.  The daily trend groups sales by the first ten characters of their
timestamp: its entries have pairwise-distinct non-empty day keys, each
entry's revenue and profit are the sums over exactly the sales sharing that
day prefix, every sale with a non-empty day prefix is represented, the
output is sorted ascending lexicographically by day string, and on the
spec's example two sales timestamped 08:00 and 23:00 of 2024-03-01 land in
the single bucket "2024-03-01". -/
theorem dailyTrend_bucketing (now : ℤ) (sales : List Sale)
    (expenses : List Expense) (returns : List Ret) :
    ((computePL now sales expenses returns).dailyTrend).Pairwise
        (fun a b => strLe a.date b.date = true)
    ∧ ((computePL now sales expenses returns).dailyTrend.map
        TrendEntry.date).Nodup
    ∧ (∀ g ∈ (computePL now sales expenses returns).dailyTrend,
        g.date ≠ emptyStr
        ∧ g.revenue
            = ((sales.filter (fun s => decide (saleDay s = g.date))).map
                (fun s => orZ s.total)).sum
        ∧ g.profit
            = ((sales.filter (fun s => decide (saleDay s = g.date))).map
                (fun s => orZ s.total - orZ s.qty * orZ s.costPrice)).sum)
    ∧ (∀ s ∈ sales, saleDay s ≠ emptyStr →
        saleDay s ∈ (computePL now sales expenses returns).dailyTrend.map
          TrendEntry.date)
    ∧ (computePL 0 [exDayS1, exDayS2] [] []).dailyTrend.map TrendEntry.date
        = [dayA] := by
  rw [computePL_dailyTrend]
  refine ⟨?_, ?_, (trendSorted_entries sales).1,
    (trendSorted_entries sales).2, by decide⟩
  · have hpw := pairwise_jsSort (fun (a b : String × TrendAcc) => strLe a.1 b.1)
      (fun a b c hab hbc => strLe_trans a.1 b.1 c.1 hab hbc)
      (fun a b => strLe_total a.1 b.1) (dailyTrendMap sales)
    unfold trendSorted
    exact List.Pairwise.map _ (fun a b h => h) hpw
  · have h1 : (trendSorted sales).map TrendEntry.date
        = (jsSort (fun a b => strLe a.1 b.1) (dailyTrendMap sales)).map
            Prod.fst := by
      unfold trendSorted
      rw [List.map_map]
      rfl
    rw [h1]
    apply (((jsSort_perm (fun a b => strLe a.1 b.1)
      (dailyTrendMap sales)).map Prod.fst).nodup_iff).mpr
    rw [dailyTrendMap_eq]
    exact keys_nodup_groupAccum saleDay trendAcc0 trendStep _ [] (by simp)

theorem dailyTrend_bucketing_w :
    saleDay exDayS1
      ∈ (computePL 0 [exDayS1, exDayS2] [] []).dailyTrend.map
          TrendEntry.date := by
  refine (dailyTrend_bucketing 0 [exDayS1, exDayS2] [] []).2.2.2.1 exDayS1
    (List.mem_cons_self exDayS1 [exDayS2]) (by decide)

def exNoDate : Sale := { total := some 5 }

/-- C10 (implicit).  A sale with a missing or empty timestamp is silently
excluded from the daily trend (no bucket, in particular never an empty-string
key) while it still contributes to the global revenue: the bucket revenues
always sum to the revenue of the sales with a non-empty day prefix, they sum
to the full `revenue` whenever every sale has a non-empty timestamp, and on
a one-sale input with no timestamp the bucket sum is strictly below
`revenue`. -/
theorem dailyTrend_missing_dates (now : ℤ) (sales : List Sale)
    (expenses : List Expense) (returns : List Ret) :
    emptyStr
      ∉ (computePL now sales expenses returns).dailyTrend.map
          TrendEntry.date
    ∧ ((computePL now sales expenses returns).dailyTrend.map
        TrendEntry.revenue).sum
      = ((sales.filter (fun s => decide (¬ saleDay s = emptyStr))).map
          (fun s => orZ s.total)).sum
    ∧ ((∀ s ∈ sales, saleDay s ≠ emptyStr) →
        ((computePL now sales expenses returns).dailyTrend.map
            TrendEntry.revenue).sum
          = (computePL now sales expenses returns).revenue)
    ∧ ((computePL 0 [exNoDate] [] []).dailyTrend.map
        TrendEntry.revenue).sum
      < (computePL 0 [exNoDate] [] []).revenue := by
  rw [computePL_dailyTrend]
  have hsum : ((trendSorted sales).map TrendEntry.revenue).sum
      = ((sales.filter (fun s => decide (¬ saleDay s = emptyStr))).map
          (fun s => orZ s.total)).sum := by
    have h1 : (trendSorted sales).map TrendEntry.revenue
        = (jsSort (fun a b => strLe a.1 b.1) (dailyTrendMap sales)).map
            (fun p => p.2.revenue) := by
      unfold trendSorted
      rw [List.map_map]
      rfl
    rw [h1, ((jsSort_perm (fun a b => strLe a.1 b.1)
      (dailyTrendMap sales)).map (fun p => p.2.revenue)).sum_eq,
      dailyTrendMap_eq]
    have hgroup := sum_groupAccum TrendAcc.revenue saleDay trendAcc0
      trendStep (fun s => orZ s.total) rfl (fun x v => rfl)
      (sales.filter (fun s => decide (¬ saleDay s = emptyStr))) []
    simpa using hgroup
  refine ⟨?_, hsum, ?_, ?_⟩
  · intro hmem
    rcases List.mem_map.mp hmem with ⟨g, hg, hgdate⟩
    exact ((trendSorted_entries sales).1 g hg).1 hgdate
  · intro h
    rw [hsum, computePL_revenue, sumBy_eq_sum_map]
    have hfe : sales.filter (fun s => decide (¬ saleDay s = emptyStr))
        = sales := by
      apply List.filter_eq_self.mpr
      intro a ha
      exact decide_eq_true (h a ha)
    rw [hfe]
  · have hnil : (computePL 0 [exNoDate] [] []).dailyTrend
        = ([] : List TrendEntry) := rfl
    rw [hnil, computePL_revenue]
    simp [sumBy, orZ, exNoDate]

theorem dailyTrend_missing_dates_w :
    ((computePL 0 [exDayS1] [] []).dailyTrend.map TrendEntry.revenue).sum
      = (computePL 0 [exDayS1] [] []).revenue := by
  refine (dailyTrend_missing_dates 0 [exDayS1] [] []).2.2.1 ?_
  intro s hs
  rw [List.mem_singleton] at hs
  subst hs
  decide

/-! ### Top customers (C6) -/

theorem customerRevenue_length (sales : List Sale) :
    (customerRevenue sales).length
      = ((sales.map saleCustomer).dedup).length := by
  have h1 : (customerRevenue sales).length
      = ((customerRevenue sales).map Prod.fst).length :=
    (List.length_map _ _).symm
  rw [h1]
  apply length_eq_of_nodup_mem_iff
  · unfold customerRevenue
    exact keys_nodup_groupAccum saleCustomer custAcc0 custStep sales []
      (by simp)
  · exact List.nodup_dedup _
  · intro k
    unfold customerRevenue
    rw [mem_keys_groupAccum, List.mem_dedup, List.mem_map]
    simp

/-- C6.  `topCustomers` groups sales by the defaulted customer name, sums
revenue, paid, balance and count per customer, sorts descending by revenue
and truncates to at most ten entries: its length is the minimum of 10 and
the number of distinct defaulted customer names (so 15 distinct customers
give exactly 10 entries), it is ordered by non-increasing revenue, and each
entry holds the per-customer sums. -/
theorem topCustomers_spec (now : ℤ) (sales : List Sale)
    (expenses : List Expense) (returns : List Ret) :
    ((computePL now sales expenses returns).topCustomers).Pairwise
        (fun a b => b.revenue ≤ a.revenue)
    ∧ (computePL now sales expenses returns).topCustomers.length
        = min 10 ((sales.map saleCustomer).dedup).length
    ∧ ∀ g ∈ (computePL now sales expenses returns).topCustomers,
        g.revenue
            = ((sales.filter (fun s => decide (saleCustomer s = g.name))).map
                (fun s => orZ s.total)).sum
        ∧ g.paid
            = ((sales.filter (fun s => decide (saleCustomer s = g.name))).map
                (fun s => orZ s.paid)).sum
        ∧ g.balance
            = ((sales.filter (fun s => decide (saleCustomer s = g.name))).map
                (fun s => orZ s.balance)).sum
        ∧ g.count
            = (sales.filter
                (fun s => decide (saleCustomer s = g.name))).length := by
  rw [computePL_topCustomers]
  refine ⟨?_, ?_, ?_⟩
  · have hpw := pairwise_jsSort
      (fun (a b : String × CustAcc) => decide (b.2.revenue ≤ a.2.revenue))
      (fun a b c hab hbc =>
        decide_eq_true_eq.mpr
          (le_trans (of_decide_eq_true hbc) (of_decide_eq_true hab)))
      (fun a b => by
        rcases le_total b.2.revenue a.2.revenue with h | h <;> simp [h])
      (customerRevenue sales)
    have htake := List.Pairwise.sublist
      (List.take_sublist 10
        (jsSort (fun a b => decide (b.2.revenue ≤ a.2.revenue))
          (customerRevenue sales))) hpw
    unfold topCustomersOf
    exact List.Pairwise.map _ (fun a b h => of_decide_eq_true h) htake
  · unfold topCustomersOf
    rw [List.length_map, List.length_take,
      (jsSort_perm (fun a b => decide (b.2.revenue ≤ a.2.revenue))
        (customerRevenue sales)).length_eq,
      customerRevenue_length]
  · intro g hg
    unfold topCustomersOf at hg
    rcases List.mem_map.mp hg with ⟨p, hp, hgp⟩
    have hp2 : p ∈ jsSort (fun a b => decide (b.2.revenue ≤ a.2.revenue))
        (customerRevenue sales) := List.take_subset 10 _ hp
    have hpm : p ∈ groupAccum saleCustomer custAcc0 custStep [] sales := by
      have := (jsSort_perm (fun a b => decide (b.2.revenue ≤ a.2.revenue))
        (customerRevenue sales)).mem_iff.mp hp2
      unfold customerRevenue at this
      exact this
    have hknd : ((groupAccum saleCustomer custAcc0 custStep [] sales).map
        Prod.fst).Nodup :=
      keys_nodup_groupAccum saleCustomer custAcc0 custStep sales []
        (by simp)
    have hval := lookupD_of_mem hknd hpm custAcc0
    rw [lookupD_groupAccum saleCustomer custAcc0 custStep p.1 sales [],
      lookupD_nil] at hval
    have hrev := foldl_measure (fun v (x : Sale) => custStep x v)
      CustAcc.revenue (fun s => orZ s.total) (fun a x => rfl)
      (sales.filter (fun x => decide (saleCustomer x = p.1))) custAcc0
    have hpaid := foldl_measure (fun v (x : Sale) => custStep x v)
      CustAcc.paid (fun s => orZ s.paid) (fun a x => rfl)
      (sales.filter (fun x => decide (saleCustomer x = p.1))) custAcc0
    have hbal := foldl_measure (fun v (x : Sale) => custStep x v)
      CustAcc.balance (fun s => orZ s.balance) (fun a x => rfl)
      (sales.filter (fun x => decide (saleCustomer x = p.1))) custAcc0
    have hcnt := foldl_measure (M := ℕ) (fun v (x : Sale) => custStep x v)
      CustAcc.count (fun _ => 1) (fun a x => rfl)
      (sales.filter (fun x => decide (saleCustomer x = p.1))) custAcc0
    subst hgp
    refine ⟨?_, ?_, ?_, ?_⟩
    · show p.2.revenue = _
      rw [← hval, hrev]
      show (0 : ℚ) + _ = _
      rw [zero_add]
    · show p.2.paid = _
      rw [← hval, hpaid]
      show (0 : ℚ) + _ = _
      rw [zero_add]
    · show p.2.balance = _
      rw [← hval, hbal]
      show (0 : ℚ) + _ = _
      rw [zero_add]
    · show p.2.count = _
      rw [← hval, hcnt, sum_map_one]
      show 0 + _ = _
      rw [Nat.zero_add]

/-- Fifteen sales with fifteen distinct customer names and distinct
revenues. -/
def ex15 : List Sale :=
  (List.range 15).map
    (fun i =>
      { customer := some (String.mk [Char.ofNat (Nat.add 65 i)])
        total := some (((i : ℕ) : ℚ) + 1) })

theorem topCustomers_spec_w :
    (computePL 0 ex15 [] []).topCustomers.length = 10 := by
  have h := (topCustomers_spec 0 ex15 [] []).2.1
  rw [h]
  decide

end BizTrack
